import Mathlib

set_option maxRecDepth 100000
set_option maxHeartbeats 1000000

/-!
Shallow embedding of the `otp` Go package (digitaldata-cz/otp): a TOTP
authentication primitive with HMAC-SHA1 code derivation, a sliding
acceptance window with replay protection, single-use scratch codes, and
a provisioning-URI formatter.  Machine words are modelled as `Nat` with
explicit reduction modulo 2^32 / 2^64; byte strings are `List Nat` with
entries below 256; the wall clock read by `time.Now().UTC().Unix()` is an
explicit `Int` parameter.
-/

namespace Otp

/-- Reduce a natural number to a 32-bit word (explicit overflow). -/
def w32 (n : Nat) : Nat := n % 4294967296

/-- Rotate a 32-bit word left by `k` bits (input assumed below 2^32). -/
def rotl (k n : Nat) : Nat := w32 (n <<< k) ||| (n >>> (32 - k))

/-- Big-endian byte serialization of `n` into `k` bytes (low bytes of `n`). -/
def bytesBE : Nat → Nat → List Nat
  | 0, _ => []
  | k+1, n => bytesBE k (n / 256) ++ [n % 256]

/-- Group a byte list into big-endian 32-bit words (drops a ragged tail). -/
def bytesToWords : List Nat → List Nat
  | b0 :: b1 :: b2 :: b3 :: rest =>
      (((b0 * 256 + b1) * 256 + b2) * 256 + b3) :: bytesToWords rest
  | _ => []

/-- SHA-1 round function `f_t`. -/
def sha1F (t b c d : Nat) : Nat :=
  if t < 20 then (b &&& c) ||| ((b ^^^ 4294967295) &&& d)
  else if t < 40 then b ^^^ c ^^^ d
  else if t < 60 then (b &&& c) ||| (b &&& d) ||| (c &&& d)
  else b ^^^ c ^^^ d

/-- SHA-1 round constant `K_t`. -/
def sha1K (t : Nat) : Nat :=
  if t < 20 then 1518500249 else if t < 40 then 1859775393
  else if t < 60 then 2400959708 else 3395469782

/-- One step of the SHA-1 message-schedule extension, on the schedule
kept most-recent-first: `W[n] = rotl1 (W[n-3] ^^^ W[n-8] ^^^ W[n-14] ^^^
W[n-16])` is prepended. -/
def sha1ExtendStep (r : List Nat) : List Nat :=
  rotl 1 (r.getD 2 0 ^^^ r.getD 7 0 ^^^ r.getD 13 0 ^^^ r.getD 15 0) :: r

/-- Iterate a list transformer `n` times. -/
def iterList (f : List Nat → List Nat) : Nat → List Nat → List Nat
  | 0, a => a
  | n+1, a => iterList f n (f a)

/-- Expand a 16-word block into the 80-word SHA-1 schedule. -/
def sha1W (block : List Nat) : List Nat :=
  (iterList sha1ExtendStep 64 block.reverse).reverse

/-- The five 32-bit SHA-1 chaining words. -/
structure SHA1State where
  a : Nat
  b : Nat
  c : Nat
  d : Nat
  e : Nat
deriving DecidableEq

/-- One SHA-1 round. -/
def sha1Round (t w : Nat) (s : SHA1State) : SHA1State :=
  ⟨w32 (rotl 5 s.a + sha1F t s.b s.c s.d + s.e + sha1K t + w),
    s.a, rotl 30 s.b, s.c, s.d⟩

/-- Run the 80 SHA-1 rounds over the schedule words. -/
def sha1Rounds : Nat → List Nat → SHA1State → SHA1State
  | _, [], s => s
  | t, w :: ws, s => sha1Rounds (t+1) ws (sha1Round t w s)

/-- SHA-1 compression of one 64-byte block into the chaining state. -/
def sha1Compress (h : SHA1State) (block : List Nat) : SHA1State :=
  let s := sha1Rounds 0 (sha1W (bytesToWords block)) h
  ⟨w32 (h.a + s.a), w32 (h.b + s.b), w32 (h.c + s.c),
    w32 (h.d + s.d), w32 (h.e + s.e)⟩

/-- Fold the compression over consecutive 64-byte blocks (fuel-driven so
that the definition reduces in the kernel). -/
def sha1Blocks : Nat → SHA1State → List Nat → SHA1State
  | 0, h, _ => h
  | _+1, h, [] => h
  | n+1, h, msg => sha1Blocks n (sha1Compress h (msg.take 64)) (msg.drop 64)

/-- Merkle–Damgård padding: 0x80, zeros to 56 mod 64, 8-byte bit length. -/
def sha1Pad (msg : List Nat) : List Nat :=
  msg ++ 128 :: (List.replicate ((119 - msg.length % 64) % 64) 0 ++
    bytesBE 8 (msg.length * 8))

/-- SHA-1 of a byte list, as its 20-byte digest. -/
def sha1 (msg : List Nat) : List Nat :=
  let p := sha1Pad msg
  let h := sha1Blocks (p.length / 64)
    ⟨1732584193, 4023233417, 2562383102, 271733878, 3285377520⟩ p
  bytesBE 4 h.a ++ bytesBE 4 h.b ++ bytesBE 4 h.c ++ bytesBE 4 h.d ++
    bytesBE 4 h.e

/-- HMAC-SHA1 (RFC 2104, 64-byte block size), as used by
`hmac.New(sha1.New, key)` in `ComputeCode`. -/
def hmacSha1 (key msg : List Nat) : List Nat :=
  let k0 := if 64 < key.length then sha1 key else key
  let k1 := k0 ++ List.replicate (64 - k0.length) 0
  sha1 ((k1.map (fun b => b ^^^ 92)) ++ sha1 ((k1.map (fun b => b ^^^ 54)) ++ msg))

/-- Value of one character of the standard base-32 alphabet `A..Z2..7`. -/
def b32Val (c : Char) : Option Nat :=
  if 65 ≤ c.toNat ∧ c.toNat ≤ 90 then some (c.toNat - 65)
  else if 50 ≤ c.toNat ∧ c.toNat ≤ 55 then some (c.toNat - 24)
  else none

/-- Number of output bytes of a base-32 quantum with `d` data characters;
`none` for the data lengths RFC 4648 forbids. -/
def b32OutLen : Nat → Option Nat
  | 8 => some 5
  | 7 => some 4
  | 5 => some 3
  | 4 => some 2
  | 2 => some 1
  | _ => none

/-- Decode one 8-character base-32 quantum.  `final` tells whether this is
the last quantum of the input; padding `=` is only legal there. -/
def b32Block (cs : List Char) (final : Bool) : Option (List Nat) :=
  let dataChars := cs.takeWhile (fun c => !(c == '='))
  let padChars := cs.dropWhile (fun c => !(c == '='))
  if !(padChars.all (fun c => c == '=')) then none
  else if !final && !padChars.isEmpty then none
  else
    match b32OutLen dataChars.length with
    | none => none
    | some outLen =>
      match dataChars.mapM b32Val with
      | none => none
      | some vs =>
        let v := (vs ++ List.replicate (8 - vs.length) 0).foldl
          (fun a x => a * 32 + x) 0
        some ((bytesBE 5 v).take outLen)

/-- Fuel-driven loop over base-32 quanta. -/
def b32Loop : Nat → List Char → Option (List Nat)
  | 0, _ => none
  | _+1, [] => some []
  | n+1, cs =>
    if cs.length < 8 then none
    else
      match b32Block (cs.take 8) (decide (cs.length = 8)), b32Loop n (cs.drop 8) with
      | some bs, some rest => some (bs ++ rest)
      | _, _ => none

/-- Model of Go's `base32.StdEncoding.DecodeString`: strict RFC 4648
decoding over the standard padded alphabet, with newline and carriage
return characters stripped first, `none` on any corrupt input. -/
def base32Decode (s : String) : Option (List Nat) :=
  let cs := s.data.filter (fun c => !(c == '\n') && !(c == '\r'))
  b32Loop (cs.length / 8 + 1) cs

/-- The error values of the package: `ErrInvalidCode`, `ErrInvalidSecret`,
`ErrInvalidChallenge`. -/
inductive OTPError where
  | InvalidCode
  | InvalidSecret
  | InvalidChallenge
deriving DecidableEq

/-- The decimal digit character for `n < 10`. -/
def digitChar : Nat → Char
  | 0 => '0'
  | 1 => '1'
  | 2 => '2'
  | 3 => '3'
  | 4 => '4'
  | 5 => '5'
  | 6 => '6'
  | 7 => '7'
  | 8 => '8'
  | _ => '9'

/-- Go's `fmt.Sprintf("%06d", n)` for `n < 1000000`: a zero-padded
six-digit decimal string. -/
def zeroPad6 (n : Nat) : String :=
  String.mk [digitChar (n / 100000 % 10), digitChar (n / 10000 % 10),
    digitChar (n / 1000 % 10), digitChar (n / 100 % 10),
    digitChar (n / 10 % 10), digitChar (n % 10)]

/-- `binary.Write(hash, binary.BigEndian, challenge)`: the 8-byte
big-endian two's-complement encoding of an `int64`. -/
def int64BE (v : Int) : List Nat :=
  bytesBE 8 (v.emod 18446744073709551616).toNat

/-- `ComputeCode(secret, challenge)`: HOTP dynamic truncation of
HMAC-SHA1 over the big-endian challenge, keyed by the base-32-decoded
secret.  Returns the `(code, err)` pair of the Go function. -/
def ComputeCode (secret : String) (challenge : Int) : String × Option OTPError :=
  match base32Decode secret with
  | none => ("", some OTPError.InvalidSecret)
  | some key =>
    let h := hmacSha1 key (int64BE challenge)
    let off := h.getD 19 0 &&& 15
    let v := ((((h.getD off 0) * 256 + h.getD (off+1) 0) * 256 +
      h.getD (off+2) 0) * 256 + h.getD (off+3) 0) &&& 2147483647
    (zeroPad6 (v % 1000000), none)

/-- Go's truncating integer division (`/` on `int`), `Int.tdiv`. -/
def goDiv (a b : Int) : Int := a.tdiv b

/-- Model of Go's `strconv.Atoi`: an optional single `+`/`-` sign followed
by at least one decimal digit, rejecting any other character, the empty
string, and values outside the `int64` range (`ErrRange`).  `none` stands
for a non-nil error. -/
def goAtoi (s : String) : Option Int :=
  match s.data with
  | [] => none
  | c :: rest =>
    let signDigits : Bool × List Char :=
      if c = '-' then (true, rest)
      else if c = '+' then (false, rest) else (false, c :: rest)
    let neg := signDigits.1
    let digits := signDigits.2
    if digits.isEmpty then none
    else if digits.all (fun d => decide (48 ≤ d.toNat ∧ d.toNat ≤ 57)) then
      let n : Nat := digits.foldl (fun a d => a * 10 + (d.toNat - 48)) 0
      let v : Int := if neg then -(n : Int) else (n : Int)
      if -9223372036854775808 ≤ v ∧ v ≤ 9223372036854775807 then some v
      else none
    else none

/-- The `OTPConfig` struct: secret, window size, replay-guard list and
scratch codes. -/
structure OTPConfig where
  Secret : String
  WindowSize : Int
  UsedCodes : List Int
  ScratchCodes : List Int
deriving DecidableEq

/-- `GC`: drop every used code strictly below the current window's lower
bound, computed from the wall clock `now` passed explicitly. -/
def GC (otp : OTPConfig) (now : Int) : OTPConfig :=
  let minT := goDiv now 30 - goDiv otp.WindowSize 2
  { otp with UsedCodes := otp.UsedCodes.filter (fun t => decide (minT ≤ t)) }

/-- The `for t := minT; t <= maxT; t++` search of the TOTP branch, with
`fuel` remaining iterations.  `some (true, t)` means step `t` matched and
was not yet used (accept), `some (false, t)` means `t` matched but is in
`used` (replay, the loop returns immediately), `none` means no match. -/
def totpScan (secret password : String) (used : List Int) :
    Int → Nat → Option (Bool × Int)
  | _, 0 => none
  | t, n+1 =>
    if (ComputeCode secret t).1 = password then
      if used.contains t then some (false, t) else some (true, t)
    else totpScan secret password used (t+1) n

/-- The scratch-code scan: remove the first occurrence of `x`, or `none`
when `x` is absent (`append(s[:i], s[i+1:]...)` at the first match). -/
def removeFirst (x : Int) : List Int → Option (List Int)
  | [] => none
  | y :: ys => if x = y then some ys
    else (removeFirst x ys).map (fun zs => y :: zs)

/-- `password[0] >= '1'` of the scratch dispatch case.  (Reached only
after `strconv.Atoi` succeeded, so the first character is a single-byte
sign or digit and the byte test equals the character test.) -/
def firstByteGe1 (s : String) : Bool :=
  match s.data with
  | [] => false
  | c :: _ => decide (49 ≤ c.toNat)

/-- `Authenticate(password)` on an `OTPConfig`.  `now` is the wall clock
read by the TOTP branch, `gcNow` the one read by the `GC` call after a
successful TOTP acceptance; the Go code reads `time.Now()` separately at
those two points.  Returns the updated config and the `(bool, error)`
pair. -/
def Authenticate (otp : OTPConfig) (password : String) (now gcNow : Int) :
    OTPConfig × Bool × Option OTPError :=
  match goAtoi password with
  | none => (otp, false, some OTPError.InvalidCode)
  | some code =>
    if password.utf8ByteSize = 6 then
      let t0 := goDiv now 30
      let minT := t0 - goDiv otp.WindowSize 2
      let maxT := t0 + goDiv otp.WindowSize 2
      match totpScan otp.Secret password otp.UsedCodes minT
          (maxT + 1 - minT).toNat with
      | some (true, t) =>
        (GC { otp with UsedCodes := otp.UsedCodes ++ [t] } gcNow, true, none)
      | some (false, _) => (otp, false, none)
      | none => (otp, false, none)
    else if password.utf8ByteSize = 8 ∧ firstByteGe1 password = true then
      match removeFirst code otp.ScratchCodes with
      | some sc => ({ otp with ScratchCodes := sc }, true, none)
      | none => (otp, false, none)
    else (otp, false, some OTPError.InvalidCode)

/-- UTF-8 bytes of one character. -/
def charUTF8 (c : Char) : List Nat :=
  let n := c.toNat
  if n < 128 then [n]
  else if n < 2048 then [192 + n / 64, 128 + n % 64]
  else if n < 65536 then [224 + n / 4096, 128 + n / 64 % 64, 128 + n % 64]
  else [240 + n / 262144, 128 + n / 4096 % 64, 128 + n / 64 % 64, 128 + n % 64]

/-- Uppercase hexadecimal digit for `n < 16`. -/
def hexUpper (n : Nat) : Char :=
  if n < 10 then digitChar n else Char.ofNat (55 + n)

/-- Bytes Go's `url.QueryEscape` leaves unescaped. -/
def isUnreserved (b : Nat) : Bool :=
  (decide (65 ≤ b) && decide (b ≤ 90)) || (decide (97 ≤ b) && decide (b ≤ 122)) ||
  (decide (48 ≤ b) && decide (b ≤ 57)) || b == 45 || b == 95 || b == 46 || b == 126

/-- Escape one byte as `url.QueryEscape` does: unreserved bytes kept,
space becomes `+`, anything else percent-encoded in uppercase hex. -/
def escByte (b : Nat) : List Char :=
  if isUnreserved b then [Char.ofNat b]
  else if b == 32 then ['+']
  else ['%', hexUpper (b / 16), hexUpper (b % 16)]

/-- Model of Go's `url.QueryEscape`. -/
def queryEscape (s : String) : String :=
  String.mk (((s.data.map charUTF8).flatten.map escByte).flatten)

/-- Lexicographic order on character lists by code point (equals Go's
byte-wise string order on UTF-8). -/
def lexLe : List Char → List Char → Bool
  | [], _ => true
  | _ :: _, [] => false
  | a :: as, b :: bs =>
    if a.toNat < b.toNat then true
    else if b.toNat < a.toNat then false
    else lexLe as bs

/-- Go's string order, used by `sort.Strings` over the query keys. -/
def strLe (a b : String) : Bool := lexLe a.data b.data

/-- Insert a key-value pair into a key-sorted association list. -/
def insertByKey (p : String × String) :
    List (String × String) → List (String × String)
  | [] => [p]
  | q :: rest =>
    if strLe p.1 q.1 then p :: q :: rest else q :: insertByKey p rest

/-- Sort key-value pairs by key (Go's `Encode` sorts the map keys). -/
def sortByKey : List (String × String) → List (String × String)
  | [] => []
  | p :: rest => insertByKey p (sortByKey rest)

/-- Model of `url.Values.Encode`: keys sorted, each pair emitted as
`escape(k)=escape(v)`, joined with `&`. -/
def urlValuesEncode (q : List (String × String)) : String :=
  String.intercalate "&"
    ((sortByKey q).map (fun p => queryEscape p.1 ++ "=" ++ queryEscape p.2))

/-- `ProvisionURI(user, issuer)`: the `otpauth://totp/...` enrollment
URI.  Pure: the config is read, never written. -/
def ProvisionURI (otp : OTPConfig) (user issuer : String) : String :=
  let auth := "totp/" ++ (if issuer = "" then "" else issuer ++ ":")
  let q := [("secret", otp.Secret)] ++
    (if issuer = "" then [] else [("issuer", issuer)])
  "otpauth://" ++ auth ++ user ++ "?" ++ urlValuesEncode q

/-! ### Supporting lemmas -/

theorem contains_eq_true_iff {l : List Int} {a : Int} :
    l.contains a = true ↔ a ∈ l := List.elem_iff

theorem contains_eq_false_iff {l : List Int} {a : Int} :
    l.contains a = false ↔ a ∉ l := by
  rw [← Bool.not_eq_true, not_iff_not]
  exact contains_eq_true_iff

/-- If no step in the scanned range produces the password, the scan
falls through. -/
theorem totpScan_eq_none (sec pw : String) (used : List Int) :
    ∀ (n : Nat) (start : Int),
      (∀ i : Nat, i < n → (ComputeCode sec (start + i)).1 ≠ pw) →
      totpScan sec pw used start n = none := by
  intro n
  induction n with
  | zero => intro start _; rfl
  | succ m ih =>
    intro start h
    have h0 : ¬((ComputeCode sec start).1 = pw) := by
      have := h 0 (Nat.succ_pos m)
      simpa using this
    simp only [totpScan, if_neg h0]
    refine ih (start + 1) (fun i hi => ?_)
    have h' := h (i + 1) (by omega)
    have harg : start + ((i + 1 : Nat) : Int) = (start + 1) + (i : Nat) := by
      push_cast; ring
    rwa [harg] at h'

/-- A successful scan pinpoints the first matching, unused step. -/
theorem totpScan_accept (sec pw : String) (used : List Int) :
    ∀ (n : Nat) (start t : Int),
      totpScan sec pw used start n = some (true, t) →
      ∃ i : Nat, i < n ∧ t = start + i ∧
        (∀ j : Nat, j < i → (ComputeCode sec (start + j)).1 ≠ pw) ∧
        (ComputeCode sec t).1 = pw ∧ t ∉ used := by
  intro n
  induction n with
  | zero => intro start t h; simp [totpScan] at h
  | succ m ih =>
    intro start t h
    simp only [totpScan] at h
    by_cases hm : (ComputeCode sec start).1 = pw
    · rw [if_pos hm] at h
      by_cases hu : start ∈ used
      · rw [if_pos (contains_eq_true_iff.mpr hu)] at h
        simp at h
      · have hcf : ¬(used.contains start = true) := by
          rw [contains_eq_true_iff]; exact hu
        rw [if_neg hcf] at h
        simp only [Option.some.injEq, Prod.mk.injEq] at h
        obtain ⟨-, hts⟩ := h
        refine ⟨0, by omega, by simp [← hts], fun j hj => by omega, ?_, ?_⟩
        · rw [← hts]; exact hm
        · rw [← hts]; exact hu
    · rw [if_neg hm] at h
      obtain ⟨i, hi, ht, hpre, hmatch, hused⟩ := ih (start + 1) t h
      refine ⟨i + 1, by omega, ?_, ?_, hmatch, hused⟩
      · rw [ht]; push_cast; ring
      · intro j hj
        match j, hj with
        | 0, _ => simpa using hm
        | j' + 1, hj =>
          have := hpre j' (by omega)
          have harg : start + ((j' + 1 : Nat) : Int) = (start + 1) + (j' : Nat) := by
            push_cast; ring
          rwa [harg]

/-- If the first matching step of the range is already used, the scan
reports a replay at that step. -/
theorem totpScan_replay (sec pw : String) (used : List Int) :
    ∀ (n i : Nat) (start : Int),
      i < n →
      (∀ j : Nat, j < i → (ComputeCode sec (start + j)).1 ≠ pw) →
      (ComputeCode sec (start + i)).1 = pw →
      (start + i) ∈ used →
      totpScan sec pw used start n = some (false, start + i) := by
  intro n
  induction n with
  | zero => intro i start h; omega
  | succ m ih =>
    intro i start hi hpre hmatch hused
    match i with
    | 0 =>
      simp only [Nat.cast_zero, add_zero] at hmatch hused ⊢
      simp only [totpScan, if_pos hmatch]
      rw [if_pos (contains_eq_true_iff.mpr hused)]
    | i' + 1 =>
      have h0 : ¬((ComputeCode sec start).1 = pw) := by
        have := hpre 0 (by omega)
        simpa using this
      have harg : start + ((i' + 1 : Nat) : Int) = (start + 1) + (i' : Nat) := by
        push_cast; ring
      rw [harg] at hmatch hused ⊢
      simp only [totpScan, if_neg h0]
      refine ih i' (start + 1) (by omega) (fun j hj => ?_) hmatch hused
      have := hpre (j + 1) (by omega)
      have harg2 : start + ((j + 1 : Nat) : Int) = (start + 1) + (j : Nat) := by
        push_cast; ring
      rwa [harg2] at this

/-- A match inside the range keeps the scan from falling through. -/
theorem totpScan_ne_none (sec pw : String) (used : List Int) :
    ∀ (n i : Nat) (start : Int),
      i < n → (ComputeCode sec (start + i)).1 = pw →
      totpScan sec pw used start n ≠ none := by
  intro n
  induction n with
  | zero => intro i start h; omega
  | succ m ih =>
    intro i start hi hmatch
    simp only [totpScan]
    by_cases hm : (ComputeCode sec start).1 = pw
    · rw [if_pos hm]
      by_cases hu : used.contains start = true
      · rw [if_pos hu]; simp
      · rw [if_neg hu]; simp
    · rw [if_neg hm]
      have hi0 : i ≠ 0 := by
        intro h0
        rw [h0] at hmatch
        simp only [Nat.cast_zero, add_zero] at hmatch
        exact hm hmatch
      obtain ⟨i', rfl⟩ := Nat.exists_eq_succ_of_ne_zero hi0
      have harg : start + ((i' + 1 : Nat) : Int) = (start + 1) + (i' : Nat) := by
        push_cast; ring
      rw [harg] at hmatch
      exact ih i' (start + 1) (by omega) hmatch

/-- With an empty used list the scan never reports a replay. -/
theorem totpScan_nil_no_replay (sec pw : String) :
    ∀ (n : Nat) (start t : Int),
      totpScan sec pw [] start n ≠ some (false, t) := by
  intro n
  induction n with
  | zero => intro start t h; simp [totpScan] at h
  | succ m ih =>
    intro start t h
    simp only [totpScan] at h
    by_cases hm : (ComputeCode sec start).1 = pw
    · rw [if_pos hm] at h
      have : ¬(([] : List Int).contains start = true) := by simp
      rw [if_neg this] at h
      simp at h
    · rw [if_neg hm] at h
      exact ih (start + 1) t h

theorem removeFirst_eq_none_iff (x : Int) :
    ∀ l : List Int, removeFirst x l = none ↔ x ∉ l := by
  intro l
  induction l with
  | nil => simp [removeFirst]
  | cons y ys ih =>
    by_cases hxy : x = y
    · simp [removeFirst, hxy]
    · simp only [removeFirst, if_neg hxy, List.mem_cons]
      cases h : removeFirst x ys with
      | none =>
        have hx : x ∉ ys := ih.mp h
        simp [hxy, hx]
      | some zs =>
        have hx : x ∈ ys := by
          by_contra hxs
          rw [ih.mpr hxs] at h
          exact Option.noConfusion h
        simp [hxy, hx]

/-- Removing a member of a duplicate-free list removes it entirely. -/
theorem removeFirst_not_mem (x : Int) :
    ∀ (l l' : List Int), l.Nodup → removeFirst x l = some l' → x ∉ l' := by
  intro l
  induction l with
  | nil => intro l' _ h; simp [removeFirst] at h
  | cons y ys ih =>
    intro l' hnd h
    by_cases hxy : x = y
    · simp only [removeFirst, if_pos hxy, Option.some.injEq] at h
      rw [← h, hxy]
      exact (List.nodup_cons.mp hnd).1
    · simp only [removeFirst, if_neg hxy] at h
      cases hr : removeFirst x ys with
      | none => rw [hr] at h; exact Option.noConfusion h
      | some zs =>
        rw [hr] at h
        simp only [Option.map_some', Option.some.injEq] at h
        rw [← h]
        intro hmem
        rcases List.mem_cons.mp hmem with h1 | h2
        · exact hxy h1
        · exact ih zs (List.nodup_cons.mp hnd).2 hr h2

theorem GC_Secret (otp : OTPConfig) (now : Int) : (GC otp now).Secret = otp.Secret := rfl

theorem GC_WindowSize (otp : OTPConfig) (now : Int) :
    (GC otp now).WindowSize = otp.WindowSize := rfl

theorem GC_ScratchCodes (otp : OTPConfig) (now : Int) :
    (GC otp now).ScratchCodes = otp.ScratchCodes := rfl

theorem GC_UsedCodes (otp : OTPConfig) (now : Int) :
    (GC otp now).UsedCodes = otp.UsedCodes.filter
      (fun t => decide (goDiv now 30 - goDiv otp.WindowSize 2 ≤ t)) := rfl

/-- `Authenticate` on a parse failure: `ErrInvalidCode`. -/
theorem Authenticate_parse_fail (otp : OTPConfig) (pw : String) (now gcNow : Int)
    (hA : goAtoi pw = none) :
    Authenticate otp pw now gcNow = (otp, false, some OTPError.InvalidCode) := by
  unfold Authenticate
  rw [hA]

/-- `Authenticate` on a six-byte password: the TOTP branch, as a function
of the window scan. -/
theorem Authenticate_totp_eq (otp : OTPConfig) (pw : String) (now gcNow : Int)
    (c : Int) (hA : goAtoi pw = some c) (hlen : pw.utf8ByteSize = 6) :
    Authenticate otp pw now gcNow =
      match totpScan otp.Secret pw otp.UsedCodes
          (goDiv now 30 - goDiv otp.WindowSize 2)
          ((goDiv now 30 + goDiv otp.WindowSize 2) + 1 -
            (goDiv now 30 - goDiv otp.WindowSize 2)).toNat with
      | some (true, t) =>
        (GC { otp with UsedCodes := otp.UsedCodes ++ [t] } gcNow, true, none)
      | some (false, _) => (otp, false, none)
      | none => (otp, false, none) := by
  unfold Authenticate
  rw [hA]
  simp [hlen]

/-- `Authenticate` on an eight-byte password with leading byte at least
`'1'`: the scratch branch, as a function of `removeFirst`. -/
theorem Authenticate_scratch_eq (otp : OTPConfig) (pw : String) (now gcNow : Int)
    (c : Int) (hA : goAtoi pw = some c) (hlen : pw.utf8ByteSize = 8)
    (hfirst : firstByteGe1 pw = true) :
    Authenticate otp pw now gcNow =
      match removeFirst c otp.ScratchCodes with
      | some sc => ({ otp with ScratchCodes := sc }, true, none)
      | none => (otp, false, none) := by
  unfold Authenticate
  rw [hA]
  simp [hlen, hfirst]

/-- `Authenticate` on a parsed password that fits neither format:
`ErrInvalidCode`. -/
theorem Authenticate_invalid (otp : OTPConfig) (pw : String) (now gcNow : Int)
    (c : Int) (hA : goAtoi pw = some c) (h6 : ¬(pw.utf8ByteSize = 6))
    (h8 : ¬(pw.utf8ByteSize = 8 ∧ firstByteGe1 pw = true)) :
    Authenticate otp pw now gcNow = (otp, false, some OTPError.InvalidCode) := by
  unfold Authenticate
  rw [hA]
  simp only [if_neg h6, if_neg h8]


theorem digitChar_toNat {d : Nat} (h : d < 10) : (digitChar d).toNat = 48 + d := by
  interval_cases d <;> rfl

theorem digitChar_utf8Size {d : Nat} (h : d < 10) : (digitChar d).utf8Size = 1 := by
  interval_cases d <;> rfl

theorem zeroPad6_utf8ByteSize (n : Nat) : (zeroPad6 n).utf8ByteSize = 6 := by
  have h5 := digitChar_utf8Size (Nat.mod_lt (n / 100000) (by omega))
  have h4 := digitChar_utf8Size (Nat.mod_lt (n / 10000) (by omega))
  have h3 := digitChar_utf8Size (Nat.mod_lt (n / 1000) (by omega))
  have h2 := digitChar_utf8Size (Nat.mod_lt (n / 100) (by omega))
  have h1 := digitChar_utf8Size (Nat.mod_lt (n / 10) (by omega))
  have h0 := digitChar_utf8Size (Nat.mod_lt n (by omega))
  simp [zeroPad6, String.utf8ByteSize, String.utf8ByteSize.go,
    h5, h4, h3, h2, h1, h0]

/-- A six-digit code string parses back, by `strconv.Atoi`, to its value. -/
theorem goAtoi_zeroPad6 (n : Nat) (h : n < 1000000) :
    goAtoi (zeroPad6 n) = some (n : Int) := by
  have h5 : n / 100000 % 10 < 10 := Nat.mod_lt _ (by omega)
  have h4 : n / 10000 % 10 < 10 := Nat.mod_lt _ (by omega)
  have h3 : n / 1000 % 10 < 10 := Nat.mod_lt _ (by omega)
  have h2 : n / 100 % 10 < 10 := Nat.mod_lt _ (by omega)
  have h1 : n / 10 % 10 < 10 := Nat.mod_lt _ (by omega)
  have h0 : n % 10 < 10 := Nat.mod_lt _ (by omega)
  have t5 := digitChar_toNat h5
  have t4 := digitChar_toNat h4
  have t3 := digitChar_toNat h3
  have t2 := digitChar_toNat h2
  have t1 := digitChar_toNat h1
  have t0 := digitChar_toNat h0
  have hm : Char.toNat '-' = 45 := rfl
  have hp : Char.toNat '+' = 43 := rfl
  have hne1 : ¬(digitChar (n / 100000 % 10) = '-') := by
    intro he
    have hco := congrArg Char.toNat he
    rw [t5, hm] at hco
    omega
  have hne2 : ¬(digitChar (n / 100000 % 10) = '+') := by
    intro he
    have hco := congrArg Char.toNat he
    rw [t5, hp] at hco
    omega
  show goAtoi (String.mk [digitChar (n / 100000 % 10), digitChar (n / 10000 % 10),
    digitChar (n / 1000 % 10), digitChar (n / 100 % 10), digitChar (n / 10 % 10),
    digitChar (n % 10)]) = some (n : Int)
  have hall : ([digitChar (n / 100000 % 10), digitChar (n / 10000 % 10),
      digitChar (n / 1000 % 10), digitChar (n / 100 % 10), digitChar (n / 10 % 10),
      digitChar (n % 10)].all (fun d => decide (48 ≤ d.toNat ∧ d.toNat ≤ 57))) = true := by
    simp only [List.all_cons, List.all_nil, t5, t4, t3, t2, t1, t0,
      Bool.and_eq_true, decide_eq_true_eq, Bool.and_true]
    omega
  have hfold : ([digitChar (n / 100000 % 10), digitChar (n / 10000 % 10),
      digitChar (n / 1000 % 10), digitChar (n / 100 % 10), digitChar (n / 10 % 10),
      digitChar (n % 10)].foldl (fun a d => a * 10 + (d.toNat - 48)) 0) = n := by
    simp only [List.foldl_cons, List.foldl_nil, t5, t4, t3, t2, t1, t0]
    omega
  unfold goAtoi
  dsimp only
  rw [if_neg hne1, if_neg hne2]
  simp only [List.isEmpty_cons, Bool.false_eq_true, if_false, hall, if_true, hfold]
  rw [if_pos (show (-9223372036854775808 : Int) ≤ (n : Int) ∧
    (n : Int) ≤ 9223372036854775807 by omega)]

/-- C6: `ComputeCode` is pure and matches the reference HOTP test vectors
for secret `2SH3V3GDW7ZNMGYE` at steps 1, 5 and 10000 exactly. -/
theorem C6_computeCode_test_vectors :
    ComputeCode "2SH3V3GDW7ZNMGYE" 1 = ("293240", none) ∧
    ComputeCode "2SH3V3GDW7ZNMGYE" 5 = ("932068", none) ∧
    ComputeCode "2SH3V3GDW7ZNMGYE" 10000 = ("050548", none) :=
  ⟨by decide, by decide, by decide⟩

/-- C7: `ComputeCode` fails with `ErrInvalidSecret` and an empty code
exactly when the secret is not valid padded base-32, for every step; on a
valid secret its error is nil. -/
theorem C7_compute_secret_validity (secret : String) (challenge : Int) :
    (base32Decode secret = none →
      ComputeCode secret challenge = ("", some OTPError.InvalidSecret)) ∧
    (base32Decode secret ≠ none →
      (ComputeCode secret challenge).2 = none) := by
  constructor
  · intro h
    unfold ComputeCode
    rw [h]
  · intro h
    cases hk : base32Decode secret with
    | none => exact absurd hk h
    | some key =>
      unfold ComputeCode
      rw [hk]

theorem C7_compute_secret_validity_witness :
    ComputeCode "0" 0 = ("", some OTPError.InvalidSecret) ∧
    (ComputeCode "2SH3V3GDW7ZNMGYE" 0).2 = none :=
  ⟨(C7_compute_secret_validity "0" 0).1 (by decide),
   (C7_compute_secret_validity "2SH3V3GDW7ZNMGYE" 0).2 (by decide)⟩

/-- C8: with a secret that does not decode as base-32 and a well-formed
six-byte numeric password, `Authenticate` swallows the `ErrInvalidSecret`
from the code computation and reports an ordinary failed authentication:
`(false, nil)`, with the config unchanged. -/
theorem C8_invalid_secret_swallowed (otp : OTPConfig) (pw : String)
    (now gcNow : Int) (c : Int) (hsec : base32Decode otp.Secret = none)
    (hA : goAtoi pw = some c) (hlen : pw.utf8ByteSize = 6) :
    Authenticate otp pw now gcNow = (otp, false, none) := by
  have hpw : pw ≠ "" := by
    intro he
    rw [he] at hlen
    exact absurd hlen (by decide)
  rw [Authenticate_totp_eq otp pw now gcNow c hA hlen]
  rw [totpScan_eq_none otp.Secret pw otp.UsedCodes _ _
    (fun i _ => by
      simp only [ComputeCode, hsec]
      exact fun he => hpw he.symm)]

theorem C8_invalid_secret_swallowed_witness :
    Authenticate ⟨"!", 5, [], []⟩ "123456" 0 0 = (⟨"!", 5, [], []⟩, false, none) :=
  C8_invalid_secret_swallowed ⟨"!", 5, [], []⟩ "123456" 0 0 123456
    (by decide) (by decide) (by decide)

/-- C3, counterexample: `strconv.Atoi` accepts signed input, so the
six-byte string `"-12345"` — which does not denote a non-negative
integer — parses, takes the TOTP branch, and is rejected with a nil
error instead of `ErrInvalidCode`. -/
theorem C3_signed_password_no_error :
    goAtoi "-12345" = some (-12345) ∧ (-12345 : Int) < 0 ∧
    Authenticate ⟨"2SH3V3GDW7ZNMGYE", 0, [], []⟩ "-12345" 300 300 =
      (⟨"2SH3V3GDW7ZNMGYE", 0, [], []⟩, false, none) :=
  ⟨by decide, by decide, by decide⟩

/-- C3, amended: `Authenticate` returns `ErrInvalidCode` exactly when the
password fails `strconv.Atoi` (signed decimal, `int64` range), or parses
but has byte length other than six and does not have byte length eight
with first byte at least `'1'`. -/
theorem C3_invalid_code_exact (otp : OTPConfig) (pw : String) (now gcNow : Int) :
    (Authenticate otp pw now gcNow).2.2 = some OTPError.InvalidCode ↔
      (goAtoi pw = none ∨
        (pw.utf8ByteSize ≠ 6 ∧ ¬(pw.utf8ByteSize = 8 ∧ firstByteGe1 pw = true))) := by
  cases hA : goAtoi pw with
  | none =>
    rw [Authenticate_parse_fail otp pw now gcNow hA]
    simp
  | some c =>
    by_cases h6 : pw.utf8ByteSize = 6
    · rw [Authenticate_totp_eq otp pw now gcNow c hA h6]
      cases hscan : totpScan otp.Secret pw otp.UsedCodes
          (goDiv now 30 - goDiv otp.WindowSize 2)
          ((goDiv now 30 + goDiv otp.WindowSize 2) + 1 -
            (goDiv now 30 - goDiv otp.WindowSize 2)).toNat with
      | none => simp [h6]
      | some bt =>
        obtain ⟨b, t⟩ := bt
        cases b <;> simp [h6]
    · by_cases h8 : pw.utf8ByteSize = 8 ∧ firstByteGe1 pw = true
      · rw [Authenticate_scratch_eq otp pw now gcNow c hA h8.1 h8.2]
        cases hr : removeFirst c otp.ScratchCodes with
        | none => simp [hA, h8]
        | some sc => simp [hA, h8]
      · rw [Authenticate_invalid otp pw now gcNow c hA h6 h8]
        simp [hA, h6, h8]

theorem C3_invalid_code_exact_witness :
    (Authenticate ⟨"x", 5, [], []⟩ "1111111" 0 0).2.2 = some OTPError.InvalidCode :=
  (C3_invalid_code_exact ⟨"x", 5, [], []⟩ "1111111" 0 0).mpr (by decide)

/-- C9: `Authenticate` never modifies the secret or the window size, and
a rejected attempt — whatever its error — leaves the whole config
unchanged: only a successful authentication mutates state. -/
theorem C9_failure_leaves_state (otp : OTPConfig) (pw : String) (now gcNow : Int)
    (otp' : OTPConfig) (ok : Bool) (e : Option OTPError)
    (heq : Authenticate otp pw now gcNow = (otp', ok, e)) :
    otp'.Secret = otp.Secret ∧ otp'.WindowSize = otp.WindowSize ∧
      (ok = false → otp' = otp) := by
  cases hA : goAtoi pw with
  | none =>
    rw [Authenticate_parse_fail otp pw now gcNow hA] at heq
    simp only [Prod.mk.injEq] at heq
    obtain ⟨rfl, rfl, rfl⟩ := heq
    exact ⟨rfl, rfl, fun _ => rfl⟩
  | some c =>
    by_cases h6 : pw.utf8ByteSize = 6
    · rw [Authenticate_totp_eq otp pw now gcNow c hA h6] at heq
      cases hscan : totpScan otp.Secret pw otp.UsedCodes
          (goDiv now 30 - goDiv otp.WindowSize 2)
          ((goDiv now 30 + goDiv otp.WindowSize 2) + 1 -
            (goDiv now 30 - goDiv otp.WindowSize 2)).toNat with
      | none =>
        rw [hscan] at heq
        simp only [Prod.mk.injEq] at heq
        obtain ⟨rfl, rfl, rfl⟩ := heq
        exact ⟨rfl, rfl, fun _ => rfl⟩
      | some bt =>
        obtain ⟨b, t⟩ := bt
        cases b
        · rw [hscan] at heq
          simp only [Prod.mk.injEq] at heq
          obtain ⟨rfl, rfl, rfl⟩ := heq
          exact ⟨rfl, rfl, fun _ => rfl⟩
        · rw [hscan] at heq
          simp only [Prod.mk.injEq] at heq
          obtain ⟨rfl, rfl, rfl⟩ := heq
          exact ⟨rfl, rfl, fun h => Bool.noConfusion h⟩
    · by_cases h8 : pw.utf8ByteSize = 8 ∧ firstByteGe1 pw = true
      · rw [Authenticate_scratch_eq otp pw now gcNow c hA h8.1 h8.2] at heq
        cases hr : removeFirst c otp.ScratchCodes with
        | none =>
          rw [hr] at heq
          simp only [Prod.mk.injEq] at heq
          obtain ⟨rfl, rfl, rfl⟩ := heq
          exact ⟨rfl, rfl, fun _ => rfl⟩
        | some sc =>
          rw [hr] at heq
          simp only [Prod.mk.injEq] at heq
          obtain ⟨rfl, rfl, rfl⟩ := heq
          exact ⟨rfl, rfl, fun h => Bool.noConfusion h⟩
      · rw [Authenticate_invalid otp pw now gcNow c hA h6 h8] at heq
        simp only [Prod.mk.injEq] at heq
        obtain ⟨rfl, rfl, rfl⟩ := heq
        exact ⟨rfl, rfl, fun _ => rfl⟩

theorem C9_failure_leaves_state_witness :
    ("x" : String) = "x" ∧ ((5 : Int) = 5) ∧
      (false = false → (⟨"x", 5, [], []⟩ : OTPConfig) = ⟨"x", 5, [], []⟩) :=
  C9_failure_leaves_state ⟨"x", 5, [], []⟩ "foo" 0 0 ⟨"x", 5, [], []⟩ false
    (some OTPError.InvalidCode) (by decide)

/-- C2: a six-byte TOTP password accepted at a fixed time is rejected,
with nil error and unchanged state, when immediately resubmitted at the
same time: the matching step was recorded in `UsedCodes` and survives
garbage collection, so the window scan reports a replay. -/
theorem C2_no_replay (otp : OTPConfig) (pw : String) (now : Int)
    (otp' : OTPConfig) (hlen : pw.utf8ByteSize = 6)
    (hacc : Authenticate otp pw now now = (otp', true, none)) :
    Authenticate otp' pw now now = (otp', false, none) := by
  cases hA : goAtoi pw with
  | none =>
    rw [Authenticate_parse_fail otp pw now now hA] at hacc
    simp at hacc
  | some c =>
    rw [Authenticate_totp_eq otp pw now now c hA hlen] at hacc
    cases hscan : totpScan otp.Secret pw otp.UsedCodes
        (goDiv now 30 - goDiv otp.WindowSize 2)
        ((goDiv now 30 + goDiv otp.WindowSize 2) + 1 -
          (goDiv now 30 - goDiv otp.WindowSize 2)).toNat with
    | none =>
      rw [hscan] at hacc
      simp at hacc
    | some bt =>
      obtain ⟨b, t⟩ := bt
      cases b
      · rw [hscan] at hacc
        simp at hacc
      · rw [hscan] at hacc
        simp only [Prod.mk.injEq] at hacc
        obtain ⟨hotp', -, -⟩ := hacc
        obtain ⟨i, hi, ht, hpre, hmatch, hnot⟩ :=
          totpScan_accept otp.Secret pw otp.UsedCodes _ _ t hscan
        have hsec' : otp'.Secret = otp.Secret := by rw [← hotp']; rfl
        have hws' : otp'.WindowSize = otp.WindowSize := by rw [← hotp']; rfl
        have hused' : otp'.UsedCodes = (otp.UsedCodes ++ [t]).filter
            (fun s => decide (goDiv now 30 - goDiv otp.WindowSize 2 ≤ s)) := by
          rw [← hotp', GC_UsedCodes]
        have htmem : t ∈ otp'.UsedCodes := by
          rw [hused']
          refine List.mem_filter.mpr ⟨List.mem_append.mpr (Or.inr ?_), ?_⟩
          · exact List.mem_singleton.mpr rfl
          · rw [ht]
            simp only [decide_eq_true_eq]
            omega
        rw [Authenticate_totp_eq otp' pw now now c hA hlen, hsec', hws']
        rw [totpScan_replay otp.Secret pw otp'.UsedCodes _ i
          (goDiv now 30 - goDiv otp.WindowSize 2) hi hpre
          (by rw [← ht]; exact hmatch) (by rw [← ht]; exact htmem)]

theorem C2_no_replay_witness :
    Authenticate ⟨"2SH3V3GDW7ZNMGYE", 5, [8], []⟩ "765147" 300 300 =
      (⟨"2SH3V3GDW7ZNMGYE", 5, [8], []⟩, false, none) :=
  C2_no_replay ⟨"2SH3V3GDW7ZNMGYE", 5, [], []⟩ "765147" 300
    ⟨"2SH3V3GDW7ZNMGYE", 5, [8], []⟩ (by decide) (by decide)

/-- C4: the garbage collection run after a successful TOTP acceptance
keeps exactly the used steps at or above the window lower bound computed
from the wall clock at GC time (`gcNow`), not the authentication time;
afterwards no entry lies below that bound, and — under the maintained
invariants that the used list is duplicate-free with members not beyond
the current upper window bound, a non-negative window size, and a
non-decreasing clock — the list holds at most `WindowSize + 1` entries. -/
theorem C4_gc_after_success (otp : OTPConfig) (pw : String) (now gcNow : Int)
    (otp' : OTPConfig) (hlen : pw.utf8ByteSize = 6)
    (hacc : Authenticate otp pw now gcNow = (otp', true, none)) :
    (∀ s ∈ otp'.UsedCodes, goDiv gcNow 30 - goDiv otp.WindowSize 2 ≤ s) ∧
    (∀ s ∈ otp.UsedCodes, goDiv gcNow 30 - goDiv otp.WindowSize 2 ≤ s →
      s ∈ otp'.UsedCodes) ∧
    (∀ s ∈ otp'.UsedCodes, s ∈ otp.UsedCodes ∨
      (goDiv now 30 - goDiv otp.WindowSize 2 ≤ s ∧
        s ≤ goDiv now 30 + goDiv otp.WindowSize 2)) ∧
    (otp.UsedCodes.Nodup →
      (∀ s ∈ otp.UsedCodes, s ≤ goDiv now 30 + goDiv otp.WindowSize 2) →
      0 ≤ otp.WindowSize → goDiv now 30 ≤ goDiv gcNow 30 →
      (otp'.UsedCodes.length : Int) ≤ otp.WindowSize + 1) := by
  cases hA : goAtoi pw with
  | none =>
    rw [Authenticate_parse_fail otp pw now gcNow hA] at hacc
    simp at hacc
  | some c =>
    rw [Authenticate_totp_eq otp pw now gcNow c hA hlen] at hacc
    cases hscan : totpScan otp.Secret pw otp.UsedCodes
        (goDiv now 30 - goDiv otp.WindowSize 2)
        ((goDiv now 30 + goDiv otp.WindowSize 2) + 1 -
          (goDiv now 30 - goDiv otp.WindowSize 2)).toNat with
    | none =>
      rw [hscan] at hacc
      simp at hacc
    | some bt =>
      obtain ⟨b, t⟩ := bt
      cases b
      · rw [hscan] at hacc
        simp at hacc
      · rw [hscan] at hacc
        simp only [Prod.mk.injEq] at hacc
        obtain ⟨hotp', -, -⟩ := hacc
        obtain ⟨i, hi, ht, hpre, hmatch, hnot⟩ :=
          totpScan_accept otp.Secret pw otp.UsedCodes _ _ t hscan
        have hused' : otp'.UsedCodes = (otp.UsedCodes ++ [t]).filter
            (fun s => decide (goDiv gcNow 30 - goDiv otp.WindowSize 2 ≤ s)) := by
          rw [← hotp', GC_UsedCodes]
        have htlow : goDiv now 30 - goDiv otp.WindowSize 2 ≤ t := by
          rw [ht]; omega
        have hthigh : t ≤ goDiv now 30 + goDiv otp.WindowSize 2 := by
          rw [ht]; omega
        refine ⟨?_, ?_, ?_, ?_⟩
        · intro s hs
          rw [hused'] at hs
          have := (List.mem_filter.mp hs).2
          simpa using this
        · intro s hs hbound
          rw [hused']
          exact List.mem_filter.mpr
            ⟨List.mem_append.mpr (Or.inl hs), by simpa using hbound⟩
        · intro s hs
          rw [hused'] at hs
          rcases List.mem_append.mp (List.mem_filter.mp hs).1 with h1 | h2
          · exact Or.inl h1
          · right
            have hst : s = t := List.mem_singleton.mp h2
            subst hst
            exact ⟨htlow, hthigh⟩
        · intro hnd hub hws hmono
          have hnd2 : (otp.UsedCodes ++ [t]).Nodup := by
            rw [List.nodup_append]
            refine ⟨hnd, List.nodup_singleton t, ?_⟩
            intro a ha hat
            rw [List.mem_singleton] at hat
            subst hat
            exact hnot ha
          have hnd' : otp'.UsedCodes.Nodup := by
            rw [hused']
            exact hnd2.filter _
          have hsub : otp'.UsedCodes.toFinset ⊆
              Finset.Icc (goDiv gcNow 30 - goDiv otp.WindowSize 2)
                (goDiv now 30 + goDiv otp.WindowSize 2) := by
            intro s hs
            rw [List.mem_toFinset] at hs
            rw [Finset.mem_Icc]
            refine ⟨?_, ?_⟩
            · rw [hused'] at hs
              have := (List.mem_filter.mp hs).2
              simpa using this
            · rw [hused'] at hs
              rcases List.mem_append.mp (List.mem_filter.mp hs).1 with h1 | h2
              · exact hub s h1
              · rw [List.mem_singleton] at h2
                subst h2
                exact hthigh
          have hcard : otp'.UsedCodes.length = otp'.UsedCodes.toFinset.card :=
            (List.toFinset_card_of_nodup hnd').symm
          have hle := Finset.card_le_card hsub
          rw [Int.card_Icc] at hle
          have hdv : goDiv otp.WindowSize 2 = otp.WindowSize / 2 := by
            unfold goDiv
            exact Int.tdiv_eq_ediv hws (by norm_num)
          rw [hdv] at hle
          rw [hcard]
          omega

theorem C4_gc_after_success_witness :
    (∀ s ∈ ([8] : List Int), goDiv 300 30 - goDiv 5 2 ≤ s) ∧
    (∀ s ∈ ([] : List Int), goDiv 300 30 - goDiv 5 2 ≤ s → s ∈ ([8] : List Int)) ∧
    (∀ s ∈ ([8] : List Int), s ∈ ([] : List Int) ∨
      (goDiv 300 30 - goDiv 5 2 ≤ s ∧ s ≤ goDiv 300 30 + goDiv 5 2)) ∧
    (([] : List Int).Nodup →
      (∀ s ∈ ([] : List Int), s ≤ goDiv 300 30 + goDiv 5 2) →
      (0 : Int) ≤ 5 → goDiv 300 30 ≤ goDiv 300 30 →
      ((([8] : List Int).length : Int) ≤ 5 + 1)) :=
  C4_gc_after_success ⟨"2SH3V3GDW7ZNMGYE", 5, [], []⟩ "765147" 300 300
    ⟨"2SH3V3GDW7ZNMGYE", 5, [8], []⟩ (by decide) (by decide)

/-- C5: a scratch code present in a duplicate-free scratch list
authenticates exactly once: the first submission accepts and removes it,
a resubmission is rejected with nil error and no state change, and an
eight-digit code absent from the list is rejected with nil error and no
state change. -/
theorem C5_scratch_single_use (otp : OTPConfig) (c c2 : Int) (s s2 : String)
    (now gcNow now2 gcNow2 now3 gcNow3 : Int)
    (hA : goAtoi s = some c) (hlen : s.utf8ByteSize = 8)
    (hfirst : firstByteGe1 s = true)
    (hnd : otp.ScratchCodes.Nodup) (hmem : c ∈ otp.ScratchCodes)
    (hA2 : goAtoi s2 = some c2) (hlen2 : s2.utf8ByteSize = 8)
    (hfirst2 : firstByteGe1 s2 = true) (hnot2 : c2 ∉ otp.ScratchCodes) :
    ∃ sc : List Int, removeFirst c otp.ScratchCodes = some sc ∧ c ∉ sc ∧
      Authenticate otp s now gcNow = ({ otp with ScratchCodes := sc }, true, none) ∧
      Authenticate { otp with ScratchCodes := sc } s now2 gcNow2 =
        ({ otp with ScratchCodes := sc }, false, none) ∧
      Authenticate otp s2 now3 gcNow3 = (otp, false, none) := by
  cases hr : removeFirst c otp.ScratchCodes with
  | none => exact absurd hmem ((removeFirst_eq_none_iff c otp.ScratchCodes).mp hr)
  | some sc =>
    have hcnot : c ∉ sc := removeFirst_not_mem c otp.ScratchCodes sc hnd hr
    refine ⟨sc, rfl, hcnot, ?_, ?_, ?_⟩
    · rw [Authenticate_scratch_eq otp s now gcNow c hA hlen hfirst, hr]
    · rw [Authenticate_scratch_eq { otp with ScratchCodes := sc } s now2 gcNow2 c
        hA hlen hfirst]
      rw [show ({ otp with ScratchCodes := sc } : OTPConfig).ScratchCodes = sc from rfl]
      rw [(removeFirst_eq_none_iff c sc).mpr hcnot]
    · rw [Authenticate_scratch_eq otp s2 now3 gcNow3 c2 hA2 hlen2 hfirst2]
      rw [(removeFirst_eq_none_iff c2 otp.ScratchCodes).mpr hnot2]

/-- On a valid secret the computed code is a zero-padded six-digit
string. -/
theorem ComputeCode_fst (secret : String) (key : List Nat) (challenge : Int)
    (h : base32Decode secret = some key) :
    ∃ v : Nat, v < 1000000 ∧ (ComputeCode secret challenge).1 = zeroPad6 v := by
  unfold ComputeCode
  rw [h]
  refine ⟨_, ?_, rfl⟩
  exact Nat.mod_lt _ (by omega)

/-- C1, counterexample: with `windowSize = 5`, empty used steps and
current step `t0 = 191225` (wall clock 5736750), the code computed for
the out-of-window step `t0 + 3` happens to equal the code of the
in-window step `t0 - 1` ("385709"), so submitting it is accepted — the
claim's rejection of `k = 3` fails. -/
theorem C1_out_of_window_code_accepted :
    (ComputeCode "2SH3V3GDW7ZNMGYE" (goDiv 5736750 30 + 3)).1 = "385709" ∧
    (Authenticate ⟨"2SH3V3GDW7ZNMGYE", 5, [], []⟩ "385709" 5736750 5736750).2.1
      = true :=
  ⟨by decide, by decide⟩

/-- C1, amended: with `windowSize = 5`, empty used steps, a valid secret
and current step `t0`, the code computed for step `t0 + k` is accepted
for every `k ∈ [-2, 2]` (the scanned window is `[t0 - 5/2, t0 + 5/2]`
with truncating division), and is rejected with `(false, nil)` for
`k ∈ {-4, -3, 3, 4}` provided it differs from every in-window code —
an out-of-window code colliding with an in-window one is accepted. -/
theorem C1_window_acceptance (secret : String) (key : List Nat) (sc : List Int)
    (now gcNow k : Int) (hsec : base32Decode secret = some key) :
    ((-2 ≤ k ∧ k ≤ 2) →
      (Authenticate ⟨secret, 5, [], sc⟩
        (ComputeCode secret (goDiv now 30 + k)).1 now gcNow).2.1 = true) ∧
    ((k = -4 ∨ k = -3 ∨ k = 3 ∨ k = 4) →
      (∀ j : Int, -2 ≤ j → j ≤ 2 →
        (ComputeCode secret (goDiv now 30 + j)).1 ≠
          (ComputeCode secret (goDiv now 30 + k)).1) →
      Authenticate ⟨secret, 5, [], sc⟩
        (ComputeCode secret (goDiv now 30 + k)).1 now gcNow =
        (⟨secret, 5, [], sc⟩, false, none)) := by
  obtain ⟨v, hvlt, hv⟩ := ComputeCode_fst secret key (goDiv now 30 + k) hsec
  have hA := goAtoi_zeroPad6 v hvlt
  have hlen := zeroPad6_utf8ByteSize v
  have h52 : goDiv 5 2 = 2 := by decide
  have hfuel : ((goDiv now 30 + 2) + 1 - (goDiv now 30 - 2)).toNat = 5 := by
    omega
  constructor
  · rintro ⟨hk1, hk2⟩
    rw [hv]
    rw [Authenticate_totp_eq ⟨secret, 5, [], sc⟩ (zeroPad6 v) now gcNow (v : Int)
      hA hlen]
    dsimp only
    rw [h52, hfuel]
    cases hs : totpScan secret (zeroPad6 v) [] (goDiv now 30 - 2) 5 with
    | none =>
      exfalso
      refine totpScan_ne_none secret (zeroPad6 v) [] 5 (k + 2).toNat
        (goDiv now 30 - 2) (by omega) ?_ hs
      have harg : (goDiv now 30 - 2) + ((k + 2).toNat : Int) =
          goDiv now 30 + k := by omega
      rw [harg, hv]
    | some bt =>
      obtain ⟨b, t⟩ := bt
      cases b
      · exact absurd hs
          (totpScan_nil_no_replay secret (zeroPad6 v) 5 (goDiv now 30 - 2) t)
      · rfl
  · intro hk hdist
    rw [hv] at hdist ⊢
    rw [Authenticate_totp_eq ⟨secret, 5, [], sc⟩ (zeroPad6 v) now gcNow (v : Int)
      hA hlen]
    dsimp only
    rw [h52, hfuel]
    have hnone : totpScan secret (zeroPad6 v) [] (goDiv now 30 - 2) 5 = none := by
      refine totpScan_eq_none secret (zeroPad6 v) [] 5 (goDiv now 30 - 2) ?_
      intro i hi
      have harg : (goDiv now 30 - 2) + (i : Int) =
          goDiv now 30 + ((i : Int) - 2) := by omega
      rw [harg]
      exact hdist ((i : Int) - 2) (by omega) (by omega)
    rw [hnone]

theorem C1_window_acceptance_witness :
    (Authenticate ⟨"2SH3V3GDW7ZNMGYE", 5, [], []⟩
      (ComputeCode "2SH3V3GDW7ZNMGYE" (goDiv 300 30 + 0)).1 300 0).2.1 = true ∧
    Authenticate ⟨"2SH3V3GDW7ZNMGYE", 5, [], []⟩
      (ComputeCode "2SH3V3GDW7ZNMGYE" (goDiv 300 30 + 3)).1 300 0 =
      (⟨"2SH3V3GDW7ZNMGYE", 5, [], []⟩, false, none) :=
  ⟨(C1_window_acceptance "2SH3V3GDW7ZNMGYE"
      [212, 143, 186, 236, 195, 183, 242, 214, 27, 4] [] 300 0 0
      (by decide)).1 (by decide),
   (C1_window_acceptance "2SH3V3GDW7ZNMGYE"
      [212, 143, 186, 236, 195, 183, 242, 214, 27, 4] [] 300 0 3
      (by decide)).2 (by decide)
      (by intro j h1 h2; interval_cases j <;> decide)⟩

/-- C10: `ProvisionURI` is pure and formats the enrollment URI: the
issuer path segment and query parameter are omitted together when the
issuer is empty, and otherwise both appear with `issuer` placed before
`secret` in the query; values go through the query escaper.  The two
reference examples hold verbatim. -/
theorem C10_provision_uri (otp : OTPConfig) (user issuer : String) :
    (issuer = "" → ProvisionURI otp user issuer =
      "otpauth://totp/" ++ user ++ "?secret=" ++ queryEscape otp.Secret) ∧
    (issuer ≠ "" → ProvisionURI otp user issuer =
      "otpauth://totp/" ++ issuer ++ ":" ++ user ++ "?issuer=" ++
        queryEscape issuer ++ "&secret=" ++ queryEscape otp.Secret) ∧
    ProvisionURI ⟨"x", 0, [], []⟩ "test" "" = "otpauth://totp/test?secret=x" ∧
    ProvisionURI ⟨"x", 0, [], []⟩ "test" "Company" =
      "otpauth://totp/Company:test?issuer=Company&secret=x" := by
  refine ⟨?_, ?_, by decide, by decide⟩
  · intro h
    subst h
    apply String.ext
    simp only [ProvisionURI, urlValuesEncode, sortByKey, insertByKey,
      String.intercalate, List.map, if_pos rfl, List.append_nil,
      String.data_append, List.append_assoc]
    rfl
  · intro h
    apply String.ext
    unfold ProvisionURI urlValuesEncode
    rw [if_neg h, if_neg h]
    simp only [sortByKey, insertByKey, String.intercalate, String.intercalate.go,
      List.map, List.cons_append, List.nil_append, String.data_append,
      List.append_assoc]
    rfl

theorem C10_provision_uri_witness :
    ProvisionURI ⟨"x", 0, [], []⟩ "test" "" =
      "otpauth://totp/" ++ "test" ++ "?secret=" ++ queryEscape "x" ∧
    ProvisionURI ⟨"y", 0, [], []⟩ "u" "Company" =
      "otpauth://totp/" ++ "Company" ++ ":" ++ "u" ++ "?issuer=" ++
        queryEscape "Company" ++ "&secret=" ++ queryEscape "y" :=
  ⟨(C10_provision_uri ⟨"x", 0, [], []⟩ "test" "").1 rfl,
   (C10_provision_uri ⟨"y", 0, [], []⟩ "u" "Company").2.1 (by decide)⟩

theorem C5_scratch_single_use_witness :
    ∃ sc : List Int, removeFirst 11112222 [11112222, 22223333] = some sc ∧
      (11112222 : Int) ∉ sc ∧
      Authenticate ⟨"x", 5, [], [11112222, 22223333]⟩ "11112222" 0 0 =
        (⟨"x", 5, [], sc⟩, true, none) ∧
      Authenticate ⟨"x", 5, [], sc⟩ "11112222" 0 0 =
        (⟨"x", 5, [], sc⟩, false, none) ∧
      Authenticate ⟨"x", 5, [], [11112222, 22223333]⟩ "33334444" 0 0 =
        (⟨"x", 5, [], [11112222, 22223333]⟩, false, none) :=
  C5_scratch_single_use ⟨"x", 5, [], [11112222, 22223333]⟩ 11112222 33334444
    "11112222" "33334444" 0 0 0 0 0 0 (by decide) (by decide) (by decide)
    (by decide) (by decide) (by decide) (by decide) (by decide) (by decide)

end Otp
